import Mathlib

/-!
Verification of the job-migration core of the `ojs-cli` repository.

Go strings are modelled as lists of Unicode code points (`List Nat`), which is
faithful to the Go source: every character test it performs (`r >= 'A'`,
`r <= 'Z'`, comparisons with `'.'`, `':'`, `'_'`) is arithmetic on rune values.
Go's `strings.ToLower` is modelled on the ASCII range only; the source's own
case tests are ASCII-only, and all identifiers exercised by the claims are
ASCII.

JSON values (`encoding/json` raw messages after decoding) are modelled by the
inductive type `Json` below.  A `json.RawMessage` field of a Go struct is
`Option Json`: `none` is Go's nil raw message (field absent), `some .null` is a
field explicitly bound to JSON `null` (Go stores the bytes `null` in that
case).  JSON numbers are modelled as integers; the claims under study only
involve integer-valued numbers (priorities, ids, delays).
-/

namespace OjsCli

/-- Go strings as lists of Unicode code points (rune values). -/
abbrev GoStr := List Nat

/-- Embed a Lean string literal as a Go string (list of code points). -/
def gs (s : String) : GoStr := s.data.map Char.toNat

/-- JSON values, the decoded form of `encoding/json` data.  Object fields keep
their textual order; Go's decoder lets a later duplicate key overwrite an
earlier one, which `jGet` reproduces by taking the last matching key. -/
inductive Json where
  | null : Json
  | bool (b : Bool) : Json
  | num (n : Int) : Json
  | str (s : GoStr) : Json
  | arr (elems : List Json) : Json
  | obj (fields : List (GoStr × Json)) : Json

/-- Whether a JSON value is an array. -/
def Json.isArr : Json → Bool
  | .arr _ => true
  | _ => false

/-- Field lookup as Go's object decoder performs it: keys are processed in
textual order and a later duplicate overwrites an earlier one, so the last
occurrence wins. -/
def jGet (fields : List (GoStr × Json)) (k : GoStr) : Option Json :=
  (fields.filter (fun p => p.1 = k)).getLast?.map (fun p => p.2)

/-! ## Type/name canonicalizers

`sidekiqClassToType` (adapter side, `src/unnamed/part_004`) and
`toOJSJobType`/`camelToSnake` (code-analysis side,
`src/internal/migrate/analyzer.go`). -/

/-- ASCII uppercase test, Go's `r >= 'A' && r <= 'Z'`. -/
def isUpper (n : Nat) : Bool := decide (65 ≤ n ∧ n ≤ 90)

/-- ASCII lowercase test, Go's `r >= 'a' && r <= 'z'`. -/
def isLower (n : Nat) : Bool := decide (97 ≤ n ∧ n ≤ 122)

/-- One character of Go's `strings.ToLower`, restricted to ASCII. -/
def goToLower (n : Nat) : Nat := if 65 ≤ n ∧ n ≤ 90 then n + 32 else n

/-- Go's `strings.ToLower` (ASCII fragment), applied code point by code
point. -/
def toLowerAll (l : GoStr) : GoStr := l.map goToLower

/-- `strings.ReplaceAll(class, "::", ".")`: replace each non-overlapping
occurrence of `::` (58, 58), scanning left to right, with `.` (46). -/
def replaceColons : GoStr → GoStr
  | [] => []
  | [c] => [c]
  | a :: b :: rest =>
    if a = 58 ∧ b = 58 then 46 :: replaceColons rest
    else a :: replaceColons (b :: rest)

/-- The dot-insertion loop of `sidekiqClassToType` after the first character:
`prev` is the previous code point; a `.` (46) is inserted before an uppercase
letter whose predecessor is a lowercase letter other than `.`. -/
def insertDotsAux (prev : Nat) : GoStr → GoStr
  | [] => []
  | c :: rest =>
    if isUpper c ∧ prev ≠ 46 ∧ isLower prev then
      46 :: c :: insertDotsAux c rest
    else
      c :: insertDotsAux c rest

/-- The dot-insertion loop of `sidekiqClassToType` (`i > 0` guard: the first
character never receives a dot). -/
def insertDots : GoStr → GoStr
  | [] => []
  | c :: rest => c :: insertDotsAux c rest

/-- `sidekiqClassToType` from `src/unnamed/part_004`: replace `::` with `.`,
insert a dot before each uppercase letter that follows a lowercase letter,
then lowercase everything. -/
def sidekiqClassToType (class_ : GoStr) : GoStr :=
  toLowerAll (insertDots (replaceColons class_))

/-- The underscore-insertion loop of `camelToSnake` in
`src/internal/migrate/analyzer.go` after the first character: a `_` (95) is
written before every uppercase letter, regardless of the previous
character. -/
def insertUnderscoresAux : GoStr → GoStr
  | [] => []
  | c :: rest =>
    if isUpper c then 95 :: c :: insertUnderscoresAux rest
    else c :: insertUnderscoresAux rest

/-- The underscore-insertion loop of `camelToSnake` (`i > 0` guard). -/
def insertUnderscores : GoStr → GoStr
  | [] => []
  | c :: rest => c :: insertUnderscoresAux rest

/-- `camelToSnake` from `src/internal/migrate/analyzer.go`: underscore before
every non-initial uppercase letter, then lowercase. -/
def camelToSnake (s : GoStr) : GoStr :=
  toLowerAll (insertUnderscores s)

/-- `strings.ReplaceAll(s, "_", ".")`: a single-character pattern, so a
code-point-wise map. -/
def replaceUnderscores (l : GoStr) : GoStr :=
  l.map (fun n => if n = 95 then 46 else n)

set_option linter.unusedVariables false in
/-- `toOJSJobType` from `src/internal/migrate/analyzer.go`.  The `framework`
argument is part of the Go signature but unused by the body. -/
def toOJSJobType (name : GoStr) (framework : GoStr) : GoStr :=
  replaceUnderscores (camelToSnake name)

/-! ## The canonical job record and Go-decoder helpers

`ExportedJob` from `src/internal/migrate/types.go`.  The decoder helpers below
reproduce `encoding/json` struct unmarshalling: a missing field keeps the zero
value, JSON `null` is a no-op for strings and integers and sets pointers and
maps to nil, a raw-message field stores whatever value appears (including
`null`), and any other type mismatch makes the whole unmarshal fail. -/

/-- `ExportedJob`: the canonical record all adapters produce
(`src/internal/migrate/types.go`).  `args` is a `json.RawMessage` (`none` is a
nil message, i.e. the field was absent); `priority` is a `*int`;
`meta` is a `map[string]any` (`none` is a nil map). -/
structure ExportedJob where
  type : GoStr
  queue : GoStr
  args : Option Json
  priority : Option Int
  scheduledAt : GoStr
  meta : Option (List (GoStr × Json))

/-- Decode a `string` struct field: absent or `null` gives `""`, a JSON string
gives its contents, anything else is an unmarshal error. -/
def decStrField (fields : List (GoStr × Json)) (k : GoStr) : Option GoStr :=
  match jGet fields k with
  | none => some []
  | some .null => some []
  | some (.str s) => some s
  | some _ => none

/-- Decode an `int`/`int64`/numeric struct field: absent or `null` gives `0`,
a JSON number gives its value, anything else is an unmarshal error. -/
def decIntField (fields : List (GoStr × Json)) (k : GoStr) : Option Int :=
  match jGet fields k with
  | none => some 0
  | some .null => some 0
  | some (.num n) => some n
  | some _ => none

/-- Decode a `*int` struct field: absent or `null` gives a nil pointer. -/
def decOptIntField (fields : List (GoStr × Json)) (k : GoStr) :
    Option (Option Int) :=
  match jGet fields k with
  | none => some none
  | some .null => some none
  | some (.num n) => some (some n)
  | some _ => none

/-- Decode a `json.RawMessage` struct field: such fields never fail to
decode; absent stays `none` (the nil message), a present value (including
`null`) is kept verbatim. -/
def decRawFieldOpt (fields : List (GoStr × Json)) (k : GoStr) : Option Json :=
  jGet fields k

/-- Decode a `map[string]any` struct field: absent or `null` gives a nil map,
an object gives its entries, anything else is an unmarshal error. -/
def decMapField (fields : List (GoStr × Json)) (k : GoStr) :
    Option (Option (List (GoStr × Json))) :=
  match jGet fields k with
  | none => some none
  | some .null => some none
  | some (.obj kvs) => some (some kvs)
  | some _ => none

/-- Render a non-negative integer in decimal, for
`fmt.Sprintf("%.0f", sj.At)` on integral timestamps. -/
def natToGoStr (n : Nat) : GoStr := (Nat.toDigits 10 n).map Char.toNat

/-! ## wrapInArray

`wrapInArray` from `src/internal/migrate/bullmq.go` operates on the raw bytes
of a `json.RawMessage`: it returns the message unchanged when its first
non-whitespace byte is `'['` and otherwise marshals a one-element
`[]json.RawMessage` around it.  For a syntactically valid JSON value the first
non-whitespace byte is `'['` exactly when the value is an array (no other JSON
value starts with `'['`), so at the value level the function returns arrays
unchanged and wraps every other value in a one-element array. -/

/-- `wrapInArray` (value level): arrays pass through, anything else is wrapped
in a one-element array. -/
def wrapInArray : Json → Json
  | .arr xs => .arr xs
  | v => .arr [v]

/-! ## Sidekiq adapter (`src/unnamed/part_004`) -/

/-- The `sidekiqJob` struct.  `retry` has type `any`; `enqueued_at` and `at`
are float64 epoch timestamps, modelled at integral values. -/
structure SidekiqRaw where
  klass : GoStr          -- Go field `Class`, JSON key "class"
  args : Option Json     -- json.RawMessage
  queue : GoStr
  retry : Option Json    -- `any`
  jid : GoStr
  enqueuedAt : Int
  at_ : Int   -- Go field `At`, JSON key "at"

/-- `json.Unmarshal` of a JSON value into `sidekiqJob`: the top level must be
an object (or `null`, which leaves the zero struct). -/
def sidekiqRawOfJson : Json → Option SidekiqRaw
  | .null => some ⟨[], none, [], none, [], 0, 0⟩
  | .obj fields => do
    let klass ← decStrField fields (gs "class")
    let queue ← decStrField fields (gs "queue")
    let jid ← decStrField fields (gs "jid")
    let enqueuedAt ← decIntField fields (gs "enqueued_at")
    let atv ← decIntField fields (gs "at")
    some ⟨klass, decRawFieldOpt fields (gs "args"), queue,
          decRawFieldOpt fields (gs "retry"), jid, enqueuedAt, atv⟩
  | _ => none

/-- The body of `parseSidekiqJob` after unmarshalling: the class name goes
through `sidekiqClassToType`, the raw `args` bytes are copied as-is, the queue
defaults to `"default"` when empty. -/
def buildSidekiqJob (sj : SidekiqRaw) : ExportedJob :=
  { type := sidekiqClassToType sj.klass
    queue := if sj.queue = [] then gs "default" else sj.queue
    args := sj.args
    priority := none
    scheduledAt := if 0 < sj.at_ then natToGoStr sj.at_.toNat else []
    meta := some [(gs "sidekiq_jid", .str sj.jid),
                  (gs "sidekiq_class", .str sj.klass)] }

/-- `parseSidekiqJob`: unmarshal the raw record, then build the canonical
job.  `none` is Go's error return. -/
def parseSidekiqJob (j : Json) : Option ExportedJob :=
  (sidekiqRawOfJson j).map buildSidekiqJob

/-! ## BullMQ adapter (`src/internal/migrate/bullmq.go`) -/

/-- The `bullMQOpts` struct. -/
structure BullMQOpts where
  delay : Int
  priority : Int

/-- The `bullMQJobData` struct. -/
structure BullMQRaw where
  name : GoStr
  data : Option Json     -- json.RawMessage
  opts : BullMQOpts

/-- `json.Unmarshal` into `bullMQOpts`. -/
def bullMQOptsOfJson : Json → Option BullMQOpts
  | .null => some ⟨0, 0⟩
  | .obj fields => do
    let delay ← decIntField fields (gs "delay")
    let priority ← decIntField fields (gs "priority")
    some ⟨delay, priority⟩
  | _ => none

/-- `json.Unmarshal` into `bullMQJobData`. -/
def bullMQRawOfJson : Json → Option BullMQRaw
  | .null => some ⟨[], none, ⟨0, 0⟩⟩
  | .obj fields => do
    let name ← decStrField fields (gs "name")
    let opts ← match jGet fields (gs "opts") with
               | none => some (⟨0, 0⟩ : BullMQOpts)
               | some v => bullMQOptsOfJson v
    some ⟨name, decRawFieldOpt fields (gs "data"), opts⟩
  | _ => none

/-- The body of `ParseBullMQJob` after unmarshalling.  `clock` abstracts
`time.Now().Add(delay ms).UTC().Format(RFC3339)`: it maps the delay to the
formatted timestamp.  A nil `data` message marshals as `null`, so wrapping a
missing payload yields `[null]` exactly as `wrapInArray` does on `null`. -/
def buildBullMQJob (clock : Int → GoStr) (queue : GoStr) (job : BullMQRaw) :
    ExportedJob :=
  { type := job.name
    queue := queue
    args := some (wrapInArray (job.data.getD Json.null))
    priority := if 0 < job.opts.priority then some job.opts.priority else none
    scheduledAt := if 0 < job.opts.delay then clock job.opts.delay else []
    meta := some [(gs "bullmq_source", .bool true)] }

/-- `ParseBullMQJob` (the exported raw-JSON variant): unmarshal, then build. -/
def parseBullMQJob (clock : Int → GoStr) (queue : GoStr) (j : Json) :
    Option ExportedJob :=
  (bullMQRawOfJson j).map (buildBullMQJob clock queue)

/-! ## Faktory adapter (`src/unnamed/part_003`) -/

/-- The `faktoryJob` struct. -/
structure FaktoryRaw where
  jid : GoStr
  jobtype : GoStr        -- Go field `Type`, JSON key "jobtype"
  args : Option Json     -- json.RawMessage
  queue : GoStr
  priority : Int
  at_ : GoStr  -- Go field `At`, JSON key "at"
  reserveFor : Int
  retry : Int
  custom : Option (List (GoStr × Json))

/-- `json.Unmarshal` into `faktoryJob`. -/
def faktoryRawOfJson : Json → Option FaktoryRaw
  | .null => some ⟨[], [], none, [], 0, [], 0, 0, none⟩
  | .obj fields => do
    let jid ← decStrField fields (gs "jid")
    let jobtype ← decStrField fields (gs "jobtype")
    let queue ← decStrField fields (gs "queue")
    let priority ← decIntField fields (gs "priority")
    let atv ← decStrField fields (gs "at")
    let reserveFor ← decIntField fields (gs "reserve_for")
    let retry ← decIntField fields (gs "retry")
    let custom ← decMapField fields (gs "custom")
    some ⟨jid, jobtype, decRawFieldOpt fields (gs "args"), queue,
          priority, atv, reserveFor, retry, custom⟩
  | _ => none

/-- The body of `parseFaktoryJob`: `jobtype` and `args` are copied verbatim
(no canonicalization, no wrapping), queue defaults, positive priority and
non-empty `at` pass through, `custom` lands in `meta`. -/
def buildFaktoryJob (fj : FaktoryRaw) : ExportedJob :=
  { type := fj.jobtype
    queue := if fj.queue = [] then gs "default" else fj.queue
    args := fj.args
    priority := if 0 < fj.priority then some fj.priority else none
    scheduledAt := fj.at_
    meta := some ([(gs "faktory_jid", .str fj.jid)] ++
      match fj.custom with
      | some kvs => [(gs "faktory_custom", .obj kvs)]
      | none => []) }

/-- `ParseFaktoryJob`: unmarshal, then build (the build itself never fails). -/
def parseFaktoryJob (j : Json) : Option ExportedJob :=
  (faktoryRawOfJson j).map buildFaktoryJob

/-! ## River adapter (`src/unnamed/part_002`) -/

/-- The `riverJob` struct. -/
structure RiverRaw where
  id : Int
  kind : GoStr
  args : Option Json     -- json.RawMessage
  queue : GoStr
  state : GoStr
  priority : Int
  scheduledAt : GoStr
  metadata : Option Json -- json.RawMessage

/-- `json.Unmarshal` into `riverJob`. -/
def riverRawOfJson : Json → Option RiverRaw
  | .null => some ⟨0, [], none, [], [], 0, [], none⟩
  | .obj fields => do
    let id ← decIntField fields (gs "id")
    let kind ← decStrField fields (gs "kind")
    let queue ← decStrField fields (gs "queue")
    let state ← decStrField fields (gs "state")
    let priority ← decIntField fields (gs "priority")
    let scheduledAt ← decStrField fields (gs "scheduled_at")
    some ⟨id, kind, decRawFieldOpt fields (gs "args"), queue, state,
          priority, scheduledAt, decRawFieldOpt fields (gs "metadata")⟩
  | _ => none

/-- The body of `parseRiverJob` after unmarshalling: an empty `kind` is an
error; `kind` is copied verbatim into `type`; `args` is wrapped into an array
(`[]` when nil); the job's own queue overrides the list's queue when
non-empty. -/
def buildRiverJob (queue : GoStr) (rj : RiverRaw) : Option ExportedJob :=
  if rj.kind = [] then none
  else some
    { type := rj.kind
      queue := if rj.queue = [] then queue else rj.queue
      args := some (match rj.args with
                    | some a => wrapInArray a
                    | none => .arr [])
      priority := if 0 < rj.priority then some rj.priority else none
      scheduledAt := rj.scheduledAt
      meta := some [(gs "river_id", .num rj.id),
                    (gs "river_state", .str rj.state)] }

/-- `ParseRiverJob`: unmarshal, then build. -/
def parseRiverJob (queue : GoStr) (j : Json) : Option ExportedJob :=
  (riverRawOfJson j).bind (buildRiverJob queue)

/-! ## Celery adapter (`src/unnamed/part_002`)

The broker message's `body` is a base64-encoded JSON text.  Base64 transport
and JSON text are modelled by carrying the decoding outcome directly:
`none` is an empty body string, `some none` a body that decodes to no JSON
value (base64 garbage or invalid JSON), `some (some j)` a body whose decoded
text parses as the JSON value `j`. -/

/-- The `celeryMessage` struct with its `headers`, body modelled by its
decoding outcome as described above. -/
structure CeleryRaw where
  body : Option (Option Json)
  task : GoStr
  id : GoStr

/-- `decodeCeleryBodyRaw` restricted to its effect on `args`
(`parts[0]`, or `[]` when the triple is empty or not an array — unmarshalling
`null` into a slice also succeeds with an empty slice). -/
def celeryArgsOfBody : Option Json → Json
  | some (.arr (a :: _)) => a
  | _ => .arr []

/-- `decodeCeleryBodyRaw` restricted to its effect on `kwargs`
(`parts[1]` when it is an object). -/
def celeryKwargsOfBody : Option Json → Option (List (GoStr × Json))
  | some (.arr (_ :: .obj kvs :: _)) => some kvs
  | _ => none

/-- The body of `parseCeleryMessage` after unmarshalling: an empty `task`
header is an error; args is the first element of the decoded body triple
(`[]` on an empty or undecodable body); kwargs are preserved under `meta`. -/
def buildCeleryJob (queue : GoStr) (cm : CeleryRaw) : Option ExportedJob :=
  if cm.task = [] then none
  else
    let decoded : Option Json :=
      match cm.body with
      | some (some j) => some j
      | _ => none
    some
      { type := cm.task
        queue := queue
        args := some (celeryArgsOfBody decoded)
        priority := none
        scheduledAt := []
        meta := some ([(gs "celery_task_id", .str cm.id)] ++
          match celeryKwargsOfBody decoded with
          | some kvs => [(gs "celery_kwargs", .obj kvs)]
          | none => []) }

/-! ## Batch import pipeline (`src/internal/migrate/importer.go`)

The NDJSON input stream is modelled line by line as produced by
`bufio.Scanner`: a line is empty (`blank`, skipped by the `line == ""` test),
not valid JSON (`malformed`), or a parsed JSON value (`record`); Go's
`json.Unmarshal` of a record line into `ExportedJob` is `exportedJobOfJson`
on the parsed value.  The target `Poster` is modelled as a per-record success
predicate: `sendBatch` posts each record of a batch individually and counts
an error as one failure. -/

/-- One line of an NDJSON input stream. -/
inductive Line where
  | blank : Line
  | malformed : Line
  | record (j : Json) : Line

/-- Whether a line is the empty line (Go's `line == ""`). -/
def Line.isBlank : Line → Bool
  | .blank => true
  | _ => false

/-- `json.Unmarshal` of a line into `ExportedJob`. -/
def exportedJobOfJson : Json → Option ExportedJob
  | .null => some ⟨[], [], none, none, [], none⟩
  | .obj fields => do
    let type_ ← decStrField fields (gs "type")
    let queue ← decStrField fields (gs "queue")
    let priority ← decOptIntField fields (gs "priority")
    let scheduledAt ← decStrField fields (gs "scheduled_at")
    let meta ← decMapField fields (gs "meta")
    some ⟨type_, queue, decRawFieldOpt fields (gs "args"), priority,
          scheduledAt, meta⟩
  | _ => none

/-- `ImportResult` from `src/internal/migrate/importer.go`. -/
structure ImportResult where
  total : Nat
  success : Nat
  failed : Nat
  batches : Nat
deriving DecidableEq

/-- `importBatchSize`. -/
def importBatchSize : Nat := 100

/-- `sendBatch`: submit each record of the batch individually; `post job`
is `true` when the POST returns no error. -/
def sendBatch (post : ExportedJob → Bool) (batch : List ExportedJob) :
    Nat × Nat :=
  batch.foldl
    (fun acc job => if post job then (acc.1 + 1, acc.2) else (acc.1, acc.2 + 1))
    (0, 0)

/-- Flush a batch into the running result (the `sendBatch` call sites of
`importFromReader`). -/
def flushBatch (post : ExportedJob → Bool) (batch : List ExportedJob)
    (res : ImportResult) : ImportResult :=
  let sf := sendBatch post batch
  { res with success := res.success + sf.1, failed := res.failed + sf.2,
             batches := res.batches + 1 }

/-- The scan loop of `importFromReader`: blank lines are skipped; a line that
does not unmarshal counts one failed/total record and the loop continues;
a parsed record joins the batch, which is flushed at `importBatchSize`;
a final non-empty batch is flushed after the loop. -/
def importAux (post : ExportedJob → Bool) :
    List Line → List ExportedJob → ImportResult → ImportResult
  | [], batch, res =>
    if batch.length > 0 then flushBatch post batch res else res
  | l :: rest, batch, res =>
    match l with
    | .blank => importAux post rest batch res
    | .malformed =>
      importAux post rest batch
        { res with failed := res.failed + 1, total := res.total + 1 }
    | .record j =>
      match exportedJobOfJson j with
      | none =>
        importAux post rest batch
          { res with failed := res.failed + 1, total := res.total + 1 }
      | some job =>
        let batch' := batch ++ [job]
        let res' := { res with total := res.total + 1 }
        if batch'.length ≥ importBatchSize then
          importAux post rest [] (flushBatch post batch' res')
        else
          importAux post rest batch' res'

/-- `importFromReader`. -/
def importFromReader (post : ExportedJob → Bool) (lines : List Line) :
    ImportResult :=
  importAux post lines [] ⟨0, 0, 0, 0⟩

/-! ## Validation-only mode (`src/unnamed/part_004`) -/

/-- The distinct validation error messages of `validateJob` and
`validateFromReader`. -/
inductive VMsg where
  | invalidJSON : VMsg
  | missingType : VMsg
  | missingQueue : VMsg
  | missingArgs : VMsg
  | argsNotArray : VMsg
  | negativePriority : VMsg
deriving DecidableEq

/-- A line-numbered validation error (`ValidationError`). -/
structure ValidationError where
  line : Nat
  message : VMsg
deriving DecidableEq

/-- `ValidationResult`. -/
structure ValidationResult where
  total : Nat
  valid : Nat
  invalid : Nat
  errors : List ValidationError
deriving DecidableEq

/-- Whether `json.Unmarshal(job.Args, &[]json.RawMessage{...})` succeeds:
it does for a JSON array and also for JSON `null` (unmarshalling `null` into
a slice is a no-op that succeeds). -/
def argsUnmarshalsAsArray : Json → Bool
  | .arr _ => true
  | .null => true
  | _ => false

/-- `validateJob` without the line tag: the check messages in source order
(type, queue, args, priority). -/
def validateJobMsgs (job : ExportedJob) : List VMsg :=
  (if job.type = [] then [VMsg.missingType] else []) ++
  (if job.queue = [] then [VMsg.missingQueue] else []) ++
  (match job.args with
   | none => [VMsg.missingArgs]
   | some a => if argsUnmarshalsAsArray a then [] else [VMsg.argsNotArray]) ++
  (match job.priority with
   | some p => if p < 0 then [VMsg.negativePriority] else []
   | none => [])

/-- `validateJob`: the same checks, each tagged with the line number. -/
def validateJob (job : ExportedJob) (line : Nat) : List ValidationError :=
  (validateJobMsgs job).map (fun m => ⟨line, m⟩)

/-- One step of the `validateFromReader` scan: `n` is the number of lines
already consumed (the Go `lineNum` before the increment). -/
def validateAux : ValidationResult → Nat → List Line → ValidationResult
  | res, _, [] => res
  | res, n, l :: rest =>
    let ln := n + 1
    match l with
    | .blank => validateAux res ln rest
    | .malformed =>
      validateAux
        { res with total := res.total + 1, invalid := res.invalid + 1,
                   errors := res.errors ++ [⟨ln, VMsg.invalidJSON⟩] }
        ln rest
    | .record j =>
      match exportedJobOfJson j with
      | none =>
        validateAux
          { res with total := res.total + 1, invalid := res.invalid + 1,
                     errors := res.errors ++ [⟨ln, VMsg.invalidJSON⟩] }
          ln rest
      | some job =>
        let errs := validateJob job ln
        if errs = [] then
          validateAux
            { res with total := res.total + 1, valid := res.valid + 1 }
            ln rest
        else
          validateAux
            { res with total := res.total + 1, invalid := res.invalid + 1,
                       errors := res.errors ++ errs }
            ln rest

/-- `validateFromReader`: scan the stream from line 1 with empty totals.
The Go function performs no writes; it is a pure fold over the lines. -/
def validateFromReader (lines : List Line) : ValidationResult :=
  validateAux ⟨0, 0, 0, []⟩ 0 lines

/-- Whether a line would produce validation errors (used to state that every
recorded error points at a violating line). -/
def lineViolates : Line → Bool
  | .blank => false
  | .malformed => true
  | .record j =>
    match exportedJobOfJson j with
    | none => true
    | some job => !(validateJobMsgs job = [])

/-- Every recorded error carries the 1-based number of a violating input
line. -/
def errorsWellPlaced (lines : List Line) (errs : List ValidationError) :
    Bool :=
  errs.all fun e =>
    1 ≤ e.line &&
    match lines[e.line - 1]? with
    | some l => lineViolates l
    | none => false

/-- One recorded error points at a violating line (propositional form used
in the proofs). -/
def errorPointsAtViolation (lines : List Line) (e : ValidationError) : Prop :=
  1 ≤ e.line ∧ ∃ l, lines[e.line - 1]? = some l ∧ lineViolates l = true

/-! ## Live migration session state machine

Modelled from the spec: the `migration.Session` type
(`github.com/openjobspec/ojs-go-backend-common/migration`) used by
`src/cmd/ojs/commands/contract.go` is not part of this repository's source —
only its caller (`MigrationProxy`) and its tests are.  Per the spec, a session
carries a state in {idle, dual_run, cutover, rolled_back} and a percentage;
`Cutover()` is legal only from `dual_run`, where it sets the percentage to 100
and the state to `cutover`; from any other state it fails with a
`StateConflict` error and leaves the session unchanged. -/

/-- Session states (spec §4.3). -/
inductive SessionState where
  | idle : SessionState
  | dualRun : SessionState
  | cutover : SessionState
  | rolledBack : SessionState
deriving DecidableEq

/-- Migration-session errors relevant to the cutover operation. -/
inductive MigError where
  | stateConflict : MigError
deriving DecidableEq

/-- Modelled from the spec: the mutable session fields relevant to
cutover. -/
structure MSession where
  state : SessionState
  percentage : Nat
deriving DecidableEq

/-- Modelled from the spec: `Session.Cutover()` as a state transformer —
the session after the call, plus the error if the call failed.  Success only
from `dual_run`; failure returns `StateConflict` and leaves the session
unchanged. -/
def cutoverStep (s : MSession) : MSession × Option MigError :=
  match s.state with
  | .dualRun => (⟨.cutover, 100⟩, none)
  | _ => (s, some .stateConflict)

/-- `MigrationProxy.HandleCutover` (`src/cmd/ojs/commands/contract.go`): a
failed `Cutover()` is reported as HTTP 409 Conflict, a successful one as
HTTP 200. -/
def handleCutover (s : MSession) : MSession × Nat :=
  match cutoverStep s with
  | (s', none) => (s', 200)
  | (s', some _) => (s', 409)

/-! ## Live router job handler (`MigrationProxy.HandleJob`,
`src/cmd/ojs/commands/contract.go`)

The handler reads at most 1 MiB of the request body
(`io.ReadAll(io.LimitReader(r.Body, 1<<20))`, which never errors on an
oversized body — it silently truncates), then either translates and forwards
(routed to OJS) or passes through (routed to legacy).  The external
collaborators are parameters: `shouldRoute` is the sampled result of
`Splitter.ShouldRouteToOJS()`, `translate` the external
`Translator.Translate` applied to the body read, and `forward` the HTTP POST
to the OJS server (`none` is a transport error, `some code` a response with
that status).  `RecordError` calls are counted in `errorIncrements`. -/

/-- The observable outcome of one `HandleJob` call. -/
structure JobResponse where
  /-- HTTP status written to the caller. -/
  status : Nat
  /-- The routing marker on the response (`routed` body field or
  `X-Migration-Routed` header): `some true` = routed to OJS,
  `some false` = routed to legacy. -/
  routedToOJS : Option Bool
  /-- Number of `Splitter.RecordError()` calls made. -/
  errorIncrements : Nat
  /-- Number of forward attempts to the OJS server. -/
  forwardAttempts : Nat
  /-- Whether the request was passed through on the legacy path. -/
  legacyPassThrough : Bool
  /-- The `size` field of the legacy pass-through response body. -/
  sizeField : Option Nat
deriving DecidableEq

/-- The 1 MiB body bound of `HandleJob`. -/
def maxBodySize : Nat := 1 <<< 20

/-- `MigrationProxy.HandleJob` on a POST request with body `fullBody`. -/
def handleJob {α : Type} (shouldRoute : Bool) (translate : GoStr → Option α)
    (forward : α → Option Nat) (fullBody : GoStr) : JobResponse :=
  let body := fullBody.take maxBodySize
  if shouldRoute then
    match translate body with
    | none =>
      { status := 400, routedToOJS := some true, errorIncrements := 1,
        forwardAttempts := 0, legacyPassThrough := false, sizeField := none }
    | some job =>
      match forward job with
      | none =>
        { status := 502, routedToOJS := some true, errorIncrements := 1,
          forwardAttempts := 1, legacyPassThrough := false, sizeField := none }
      | some code =>
        { status := code, routedToOJS := some true, errorIncrements := 0,
          forwardAttempts := 1, legacyPassThrough := false, sizeField := none }
  else
    { status := 200, routedToOJS := some false, errorIncrements := 0,
      forwardAttempts := 0, legacyPassThrough := true,
      sizeField := some body.length }

/-! ## Auxiliary predicates used by the statements -/

/-- No ASCII uppercase letter occurs in the string. -/
def noUpper (l : GoStr) : Bool := l.all (fun n => !isUpper n)

/-- No underscore (95) occurs in the string. -/
def no95 (l : GoStr) : Bool := l.all (fun n => decide (n ≠ 95))

/-- No two adjacent colons (58) occur in the string, i.e. no occurrence of
`::` remains. -/
def noDD : GoStr → Bool
  | [] => true
  | [_] => true
  | a :: b :: rest => !(decide (a = 58 ∧ b = 58)) && noDD (b :: rest)

/-- The validity predicate exactly as the claim states it: type non-empty,
queue non-empty, `args` present and a JSON array, priority non-negative when
present. -/
def claimRecordValid (job : ExportedJob) : Prop :=
  job.type ≠ [] ∧ job.queue ≠ [] ∧
  (∃ a, job.args = some a ∧ a.isArr = true) ∧
  (∀ p, job.priority = some p → 0 ≤ p)

/-- The amended validity predicate: as the claim states it, except that a
JSON `null` in `args` is also accepted (Go's unmarshal of `null` into a slice
succeeds). -/
def amendedRecordValid (job : ExportedJob) : Prop :=
  job.type ≠ [] ∧ job.queue ≠ [] ∧
  (∃ a, job.args = some a ∧ (a.isArr = true ∨ a = Json.null)) ∧
  (∀ p, job.priority = some p → 0 ≤ p)

/-! # Theorems -/

/-! ## Shared helper lemmas -/

/-- `wrapInArray` always yields an array. -/
theorem wrapInArray_isArr (v : Json) : (wrapInArray v).isArr = true := by
  cases v <;> rfl

/-- `wrapInArray` leaves arrays unchanged. -/
theorem wrapInArray_arr (xs : List Json) :
    wrapInArray (Json.arr xs) = Json.arr xs := rfl

/-! ## C6 — acronym splitting of the canonicalizers -/

/-- C6 counterexample: the adapter-side canonicalizer `sidekiqClassToType`
does not split the uppercase run of `"HTTPServer"` letter-by-letter: it
returns `"httpserver"`, not `"h.t.t.p.server"`, because it inserts a dot only
before an uppercase letter that follows a lowercase letter. -/
theorem c6_counterexample :
    sidekiqClassToType (gs "HTTPServer") = gs "httpserver" ∧
    sidekiqClassToType (gs "HTTPServer") ≠ gs "h.t.t.p.server" := by
  constructor <;> decide

/-- C6 (amended): the code-analysis converter `toOJSJobType` splits the
uppercase run of `"HTTPServer"` letter-by-letter, producing
`"h.t.t.p.server"`; the adapter-side `sidekiqClassToType` instead splits only
at lowercase-to-uppercase boundaries and maps `"HTTPServer"` to
`"httpserver"`. -/
theorem c6_acronym_split :
    toOJSJobType (gs "HTTPServer") (gs "sidekiq") = gs "h.t.t.p.server" ∧
    camelToSnake (gs "HTTPServer") = gs "h_t_t_p_server" ∧
    sidekiqClassToType (gs "HTTPServer") = gs "httpserver" := by
  refine ⟨?_, ?_, ?_⟩ <;> decide

/-! ## C10 — wrapInArray shape and idempotence -/

/-- C10: for every JSON value, `wrapInArray` produces an array; a value that
is already an array is returned unchanged; hence `wrapInArray` is idempotent
on JSON values. -/
theorem c10_wrapInArray_idempotent (v : Json) (xs : List Json) :
    (wrapInArray v).isArr = true ∧
    wrapInArray (Json.arr xs) = Json.arr xs ∧
    wrapInArray (wrapInArray v) = wrapInArray v := by
  refine ⟨wrapInArray_isArr v, wrapInArray_arr xs, ?_⟩
  cases v <;> rfl

/-! ## C2 — cutover state machine -/

/-- C2: `Cutover()` succeeds exactly when the session is in `dual_run`;
immediately after a successful cutover a second call fails with
`StateConflict`; a failed cutover leaves the session unchanged; and
`HandleCutover` reports a failed cutover as HTTP 409. -/
theorem c2_cutover_iff_dual_run :
    (∀ s : MSession, (cutoverStep s).2 = none ↔ s.state = SessionState.dualRun) ∧
    (∀ s : MSession, (cutoverStep s).2 = none →
      (cutoverStep (cutoverStep s).1).2 = some MigError.stateConflict) ∧
    (∀ s : MSession, (cutoverStep s).2 ≠ none → (cutoverStep s).1 = s) ∧
    (∀ s : MSession, s.state ≠ SessionState.dualRun →
      handleCutover s = (s, 409)) := by
  refine ⟨?_, ?_, ?_, ?_⟩ <;> intro s <;> obtain ⟨st, p⟩ := s <;>
    cases st <;> simp [cutoverStep, handleCutover]

/-- C2 witness: from `dual_run` the first cutover succeeds and the second
fails with `StateConflict`; from `idle` the attempt fails and leaves the
session unchanged, surfaced as HTTP 409. -/
theorem c2_cutover_witness :
    (cutoverStep ⟨SessionState.dualRun, 50⟩).2 = none ∧
    (cutoverStep (cutoverStep ⟨SessionState.dualRun, 50⟩).1).2 =
      some MigError.stateConflict ∧
    (cutoverStep ⟨SessionState.idle, 10⟩).1 = ⟨SessionState.idle, 10⟩ ∧
    handleCutover ⟨SessionState.idle, 10⟩ = (⟨SessionState.idle, 10⟩, 409) := by
  refine ⟨?_, ?_, ?_, ?_⟩
  · exact (c2_cutover_iff_dual_run.1 ⟨SessionState.dualRun, 50⟩).2 rfl
  · exact c2_cutover_iff_dual_run.2.1 ⟨SessionState.dualRun, 50⟩ rfl
  · exact c2_cutover_iff_dual_run.2.2.1 ⟨SessionState.idle, 10⟩ (by decide)
  · exact c2_cutover_iff_dual_run.2.2.2 ⟨SessionState.idle, 10⟩ (by decide)

/-! ## C8 — routed failures are final -/

/-- C8: once `HandleJob` decides to route a request to the target system, a
translation failure or a forwarding failure records exactly one error and
returns an error response marked as routed to the target (`400` resp. `502`);
the routed branch never passes the request through on the legacy path, and no
request is ever forwarded more than once. -/
theorem c8_routed_failures_final (α : Type) (translate : GoStr → Option α)
    (forward : α → Option Nat) (fullBody : GoStr) :
    (translate (fullBody.take maxBodySize) = none →
      handleJob true translate forward fullBody =
        ⟨400, some true, 1, 0, false, none⟩) ∧
    (∀ a, translate (fullBody.take maxBodySize) = some a → forward a = none →
      handleJob true translate forward fullBody =
        ⟨502, some true, 1, 1, false, none⟩) ∧
    (handleJob true translate forward fullBody).legacyPassThrough = false ∧
    (∀ d : Bool, (handleJob d translate forward fullBody).forwardAttempts ≤ 1) := by
  refine ⟨?_, ?_, ?_, ?_⟩
  · intro h; simp [handleJob, h]
  · intro a ha hf; simp [handleJob, ha, hf]
  · cases h : translate (fullBody.take maxBodySize) with
    | none => simp [handleJob, h]
    | some a => cases hf : forward a <;> simp [handleJob, h, hf]
  · intro d
    cases d with
    | false => simp [handleJob]
    | true =>
      cases h : translate (fullBody.take maxBodySize) with
      | none => simp [handleJob, h]
      | some a => cases hf : forward a <;> simp [handleJob, h, hf]

/-- C8 witness: a failing translator yields the 400/routed-to-target outcome
and a failing forward yields the 502/routed-to-target outcome, each recording
one error with no legacy pass-through. -/
theorem c8_witness :
    handleJob true (fun _ => (none : Option Unit)) (fun _ => none) (gs "x") =
      ⟨400, some true, 1, 0, false, none⟩ ∧
    handleJob true (fun _ => some ()) (fun _ => (none : Option Nat)) (gs "x") =
      ⟨502, some true, 1, 1, false, none⟩ := by
  constructor
  · exact (c8_routed_failures_final Unit (fun _ => none) (fun _ => none)
      (gs "x")).1 rfl
  · exact (c8_routed_failures_final Unit (fun _ => some ()) (fun _ => none)
      (gs "x")).2.1 () rfl rfl

/-! ## C9 — oversized request bodies -/

/-- C9 counterexample: a POST body one byte over the 1 MiB bound is **not**
rejected: `HandleJob` silently truncates it (`io.LimitReader`) and processes
the truncated payload — here the routing decision is made and the request is
passed through on the legacy path with HTTP 200, reporting the truncated size
of exactly 1 MiB.  No `PayloadTooLarge` rejection exists in the code. -/
theorem c9_counterexample :
    handleJob false (fun _ => (none : Option Unit)) (fun _ => none)
        (List.replicate (maxBodySize + 1) 97) =
      ⟨200, some false, 0, 0, true, some maxBodySize⟩ := by
  simp [handleJob, List.length_take, Nat.min_eq_left (Nat.le_succ _)]

/-- C9 (amended): `HandleJob` truncates every request body to the first 1 MiB
and then processes it normally — the outcome depends only on the first 1 MiB,
a routing decision is always made (the response always carries a routing
marker), and a legacy pass-through reports the truncated body size. -/
theorem c9_truncation (α : Type) (translate : GoStr → Option α)
    (forward : α → Option Nat) (d : Bool) (fullBody : GoStr) :
    handleJob d translate forward fullBody =
      handleJob d translate forward (fullBody.take maxBodySize) ∧
    (handleJob d translate forward fullBody).routedToOJS.isSome = true ∧
    (d = false → (handleJob d translate forward fullBody).sizeField =
      some (min maxBodySize fullBody.length)) := by
  refine ⟨?_, ?_, ?_⟩
  · simp [handleJob, List.take_take]
  · cases d with
    | false => simp [handleJob]
    | true =>
      cases h : translate (fullBody.take maxBodySize) with
      | none => simp [handleJob, h]
      | some a => cases hf : forward a <;> simp [handleJob, h, hf]
  · intro hd; subst hd; simp [handleJob, List.length_take]

/-- C9 witness: on a small body the handler reports the body's own size
(`min` with the bound is the length itself) and carries a routing marker. -/
theorem c9_witness :
    (handleJob false (fun _ => (none : Option Unit)) (fun _ => none)
        (gs "abc")).sizeField = some 3 ∧
    (handleJob false (fun _ => (none : Option Unit)) (fun _ => none)
        (gs "abc")).routedToOJS.isSome = true := by
  constructor
  · have h := (c9_truncation Unit (fun _ => none) (fun _ => none) false
      (gs "abc")).2.2 rfl
    simpa using h
  · exact (c9_truncation Unit (fun _ => none) (fun _ => none) false
      (gs "abc")).2.1

/-! ## C5 — Faktory `jobtype` and River `kind` are not canonicalized -/

/-- C5 counterexample: the Faktory and River parse routines accept records
whose `jobtype`/`kind` is `"SendEmail"` and copy it verbatim into the
canonical `type`: the result still contains uppercase letters, so it is not a
lowercase dot-separated identifier, and it differs from what the shared
canonicalizer would produce (`"send.email"`). -/
theorem c5_counterexample :
    (parseFaktoryJob (.obj [(gs "jobtype", .str (gs "SendEmail")),
        (gs "args", .arr []), (gs "queue", .str (gs "default")),
        (gs "jid", .str (gs "f1"))])).map ExportedJob.type =
      some (gs "SendEmail") ∧
    (parseRiverJob (gs "default") (.obj [(gs "kind", .str (gs "SendEmail")),
        (gs "args", .obj []), (gs "id", .num 1),
        (gs "state", .str (gs "available"))])).map ExportedJob.type =
      some (gs "SendEmail") ∧
    noUpper (gs "SendEmail") = false ∧
    sidekiqClassToType (gs "SendEmail") = gs "send.email" ∧
    gs "SendEmail" ≠ gs "send.email" := by
  refine ⟨rfl, rfl, by decide, by decide, by decide⟩

/-- C5 (amended): the Faktory parse routine copies the raw `jobtype` field
verbatim into the canonical `type`, and the River parse routine copies the
raw `kind` field verbatim; neither goes through a canonicalizer, so the
canonical `type` is a lowercase dot-separated identifier only when the raw
field already was one. -/
theorem c5_verbatim_type :
    (∀ fj : FaktoryRaw, (buildFaktoryJob fj).type = fj.jobtype) ∧
    (∀ (q : GoStr) (rj : RiverRaw) (ej : ExportedJob),
      buildRiverJob q rj = some ej → ej.type = rj.kind) := by
  constructor
  · intro fj; rfl
  · intro q rj ej h
    unfold buildRiverJob at h
    split at h
    · exact absurd h (by simp)
    · injection h with h'
      subst h'
      rfl

/-- C5 witness: on a concrete Faktory record and a concrete accepted River
record, the canonical type is the raw identifier field unchanged. -/
theorem c5_verbatim_type_witness :
    (buildFaktoryJob ⟨gs "f1", gs "SendEmail", some (.arr []), gs "default",
        0, [], 0, 0, none⟩).type = gs "SendEmail" ∧
    ((parseRiverJob (gs "default") (.obj [(gs "kind", .str (gs "SendEmail")),
        (gs "id", .num 1)])).get rfl).type = gs "SendEmail" := by
  constructor
  · exact c5_verbatim_type.1 _
  · exact c5_verbatim_type.2 (gs "default")
      ⟨1, gs "SendEmail", none, [], [], 0, [], none⟩ _ (Option.some_get _).symm

/-! ## C1 — array-shaped args after canonicalization -/

/-- C1 counterexample: the Sidekiq parse routine accepts a raw record whose
`args` is the scalar `5` and copies it into the canonical job unchanged — the
canonical `args` is not array-shaped and nothing wraps it. -/
theorem c1_counterexample :
    (parseSidekiqJob (.obj [(gs "class", .str (gs "ReportWorker")),
        (gs "args", .num 5), (gs "queue", .str (gs "default")),
        (gs "jid", .str (gs "j1"))])).map ExportedJob.args =
      some (some (Json.num 5)) ∧
    Json.isArr (Json.num 5) = false := by
  exact ⟨rfl, rfl⟩

/-- C1 (amended): only the BullMQ and River adapters wrap non-array payloads
into one-element arrays, so their canonical `args` is always array-shaped;
the Sidekiq and Faktory adapters copy the raw `args` bytes verbatim, and the
Celery adapter copies the first element of the decoded body triple verbatim,
so for those three the canonical `args` is an array only when the source
value already was one. -/
theorem c1_args_wrapping :
    (∀ (clock : Int → GoStr) (q : GoStr) (bj : BullMQRaw),
        (buildBullMQJob clock q bj).args.map Json.isArr = some true) ∧
    (∀ (q : GoStr) (rj : RiverRaw) (ej : ExportedJob),
        buildRiverJob q rj = some ej → ej.args.map Json.isArr = some true) ∧
    (∀ sj : SidekiqRaw, (buildSidekiqJob sj).args = sj.args) ∧
    (∀ fj : FaktoryRaw, (buildFaktoryJob fj).args = fj.args) ∧
    (∀ (q : GoStr) (cm : CeleryRaw) (ej : ExportedJob) (a : Json)
        (rest : List Json),
        buildCeleryJob q cm = some ej →
        cm.body = some (some (Json.arr (a :: rest))) →
        ej.args = some a) := by
  refine ⟨?_, ?_, fun _ => rfl, fun _ => rfl, ?_⟩
  · intro clock q bj
    simp [buildBullMQJob, wrapInArray_isArr]
  · intro q rj ej h
    unfold buildRiverJob at h
    split at h
    · exact absurd h (by simp)
    · injection h with h'
      subst h'
      cases rj.args with
      | none => rfl
      | some a => simp [wrapInArray_isArr]
  · intro q cm ej a rest h hb
    unfold buildCeleryJob at h
    split at h
    · exact absurd h (by simp)
    · injection h with h'
      subst h'
      simp [hb, celeryArgsOfBody]

/-- C1 witness: a River record with an object payload ends up with a
one-element array `args`, and a Celery message whose body triple starts with
a scalar ends up with that scalar as `args`. -/
theorem c1_args_wrapping_witness :
    ((parseRiverJob (gs "q") (.obj [(gs "kind", .str (gs "k")),
        (gs "args", .obj [(gs "x", .num 1)])])).get rfl).args.map Json.isArr =
      some true ∧
    ((buildCeleryJob (gs "q") ⟨some (some (.arr [Json.num 3])), gs "t",
        gs "id"⟩).get rfl).args = some (Json.num 3) := by
  constructor
  · exact c1_args_wrapping.2.1 (gs "q")
      ⟨0, gs "k", some (.obj [(gs "x", .num 1)]), [], [], 0, [], none⟩ _
      (Option.some_get _).symm
  · exact c1_args_wrapping.2.2.2.2 (gs "q")
      ⟨some (some (.arr [Json.num 3])), gs "t", gs "id"⟩ _ (Json.num 3) []
      (Option.some_get _).symm rfl

/-! ## C3 — import accounting -/

/-- Each record of a batch is tallied exactly once by `sendBatch`: successes
and failures sum to the batch size. -/
theorem sendBatch_sum (post : ExportedJob → Bool) (batch : List ExportedJob) :
    (sendBatch post batch).1 + (sendBatch post batch).2 = batch.length := by
  suffices h : ∀ (acc : Nat × Nat),
      (batch.foldl (fun acc job =>
        if post job then (acc.1 + 1, acc.2) else (acc.1, acc.2 + 1)) acc).1 +
      (batch.foldl (fun acc job =>
        if post job then (acc.1 + 1, acc.2) else (acc.1, acc.2 + 1)) acc).2 =
      acc.1 + acc.2 + batch.length by
    simpa [sendBatch] using h (0, 0)
  induction batch with
  | nil => intro acc; simp
  | cons j t ih =>
    intro acc
    by_cases h : post j <;> simp only [List.foldl_cons, h, if_true, if_false] <;>
      rw [ih] <;> simp <;> omega

/-- The running invariant of the import loop: the total equals tallied
successes and failures plus the records still waiting in the batch. -/
theorem importAux_balance (post : ExportedJob → Bool) (lines : List Line) :
    ∀ (batch : List ExportedJob) (res : ImportResult),
    res.total = res.success + res.failed + batch.length →
    (importAux post lines batch res).total =
      (importAux post lines batch res).success +
        (importAux post lines batch res).failed := by
  induction lines with
  | nil =>
    intro batch res hinv
    simp only [importAux]
    split
    · simp only [flushBatch]
      have hsb := sendBatch_sum post batch
      omega
    · omega
  | cons l rest ih =>
    intro batch res hinv
    cases l with
    | blank => exact ih batch res hinv
    | malformed =>
      refine ih batch _ ?_
      simp only []
      omega
    | record j =>
      cases hdec : exportedJobOfJson j with
      | none =>
        simp only [importAux, hdec]
        refine ih batch _ ?_
        simp only []
        omega
      | some job =>
        simp only [importAux, hdec]
        split
        · refine ih [] _ ?_
          simp only [flushBatch]
          have hsb := sendBatch_sum post (batch ++ [job])
          simp only [List.length_append, List.length_cons,
            List.length_nil] at hsb ⊢
          omega
        · refine ih (batch ++ [job]) _ ?_
          simp only [List.length_append, List.length_cons, List.length_nil]
          omega

/-- The import loop counts exactly the non-blank lines in `total`. -/
theorem importAux_total_count (post : ExportedJob → Bool)
    (lines : List Line) :
    ∀ (batch : List ExportedJob) (res : ImportResult),
    (importAux post lines batch res).total =
      res.total + lines.countP (fun l => !l.isBlank) := by
  induction lines with
  | nil =>
    intro batch res
    simp only [importAux, List.countP_nil]
    split
    · simp [flushBatch]
    · simp
  | cons l rest ih =>
    intro batch res
    cases l with
    | blank =>
      simpa [List.countP_cons, Line.isBlank] using ih batch res
    | malformed =>
      simp only [importAux]
      rw [ih]
      simp [List.countP_cons, Line.isBlank]
      omega
    | record j =>
      cases hdec : exportedJobOfJson j with
      | none =>
        simp only [importAux, hdec]
        rw [ih]
        simp [List.countP_cons, Line.isBlank]
        omega
      | some job =>
        simp only [importAux, hdec]
        split
        · rw [ih]
          simp [List.countP_cons, Line.isBlank, flushBatch]
          omega
        · rw [ih]
          simp [List.countP_cons, Line.isBlank]
          omega

/-- C3: the import loop counts every non-blank line exactly once in `total`;
a line that fails to parse counts as one failed record without aborting the
stream, and on return `total = success + failed`; in particular a 3-line
stream whose middle line is malformed JSON, imported against an
always-succeeding target, reports `total = 3`, `success = 2`, `failed = 1`
(flushed in one final batch). -/
theorem c3_import_partial_failure :
    (∀ (post : ExportedJob → Bool) (lines : List Line),
        (importFromReader post lines).total =
          (importFromReader post lines).success +
            (importFromReader post lines).failed ∧
        (importFromReader post lines).total =
          lines.countP (fun l => !l.isBlank)) ∧
    importFromReader (fun _ => true)
        [Line.record (.obj [(gs "type", .str (gs "email.send")),
            (gs "queue", .str (gs "default")), (gs "args", .arr [])]),
         Line.malformed,
         Line.record (.obj [(gs "type", .str (gs "report.gen")),
            (gs "queue", .str (gs "default")), (gs "args", .arr [])])] =
      ⟨3, 2, 1, 1⟩ := by
  refine ⟨fun post lines => ⟨?_, ?_⟩, ?_⟩
  · exact importAux_balance post lines [] ⟨0, 0, 0, 0⟩ rfl
  · simpa using importAux_total_count post lines [] ⟨0, 0, 0, 0⟩
  · rfl

/-! ## C4 — validation-only mode -/

/-- `json.Unmarshal(args, &[]json.RawMessage{})` succeeds exactly on arrays
and on `null`. -/
theorem argsUnmarshalsAsArray_iff (a : Json) :
    argsUnmarshalsAsArray a = true ↔ (a.isArr = true ∨ a = Json.null) := by
  cases a <;> simp [argsUnmarshalsAsArray, Json.isArr]

/-- The validator's running totals always satisfy
`total = valid + invalid`. -/
theorem validateAux_balance (lines : List Line) :
    ∀ (res : ValidationResult) (n : Nat),
    res.total = res.valid + res.invalid →
    (validateAux res n lines).total =
      (validateAux res n lines).valid + (validateAux res n lines).invalid := by
  induction lines with
  | nil => intro res n h; simpa [validateAux] using h
  | cons l rest ih =>
    intro res n h
    cases l with
    | blank => exact ih res (n + 1) h
    | malformed =>
      simp only [validateAux]
      refine ih _ (n + 1) ?_
      simp only []
      omega
    | record j =>
      cases hdec : exportedJobOfJson j with
      | none =>
        simp only [validateAux, hdec]
        refine ih _ (n + 1) ?_
        simp only []
        omega
      | some job =>
        simp only [validateAux, hdec]
        split
        · refine ih _ (n + 1) ?_
          simp only []
          omega
        · refine ih _ (n + 1) ?_
          simp only []
          omega

/-- Every error produced by the validator scan carries the 1-based number of
a violating line of the full input (the lines already consumed are `pre`). -/
theorem validateAux_errors_placed (rest : List Line) :
    ∀ (pre : List Line) (res : ValidationResult),
    (∀ e ∈ res.errors, errorPointsAtViolation (pre ++ rest) e) →
    ∀ e ∈ (validateAux res pre.length rest).errors,
      errorPointsAtViolation (pre ++ rest) e := by
  induction rest with
  | nil => intro pre res h; simpa [validateAux] using h
  | cons l rest' ih =>
    intro pre res h
    have hassoc : (pre ++ [l]) ++ rest' = pre ++ l :: rest' := by
      simp
    have hlen : (pre ++ [l]).length = pre.length + 1 := by simp
    have hget : (pre ++ l :: rest')[pre.length]? = some l := by
      rw [List.getElem?_append_right (Nat.le_refl _)]
      simp
    have hnew : ∀ (m : VMsg), lineViolates l = true →
        errorPointsAtViolation (pre ++ l :: rest') ⟨pre.length + 1, m⟩ := by
      intro m hv
      exact ⟨Nat.le_add_left 1 _, l, by simpa using hget, hv⟩
    have hstep : ∀ (res' : ValidationResult),
        (∀ e ∈ res'.errors, errorPointsAtViolation (pre ++ l :: rest') e) →
        ∀ e ∈ (validateAux res' (pre.length + 1) rest').errors,
          errorPointsAtViolation (pre ++ l :: rest') e := by
      intro res' h'
      have h2 := ih (pre ++ [l]) res'
      rw [hassoc, hlen] at h2
      exact h2 h'
    cases l with
    | blank =>
      simp only [validateAux]
      exact hstep res h
    | malformed =>
      simp only [validateAux]
      refine hstep _ ?_
      intro e he
      rcases List.mem_append.mp he with he' | he'
      · exact h e he'
      · rcases List.mem_singleton.mp he' with rfl
        exact hnew VMsg.invalidJSON rfl
    | record j =>
      cases hdec : exportedJobOfJson j with
      | none =>
        simp only [validateAux, hdec]
        refine hstep _ ?_
        intro e he
        rcases List.mem_append.mp he with he' | he'
        · exact h e he'
        · rcases List.mem_singleton.mp he' with rfl
          exact hnew VMsg.invalidJSON (by simp [lineViolates, hdec])
      | some job =>
        simp only [validateAux, hdec]
        split
        · exact hstep _ h
        · rename_i herrs
          have hv : lineViolates (Line.record j) = true := by
            simp only [lineViolates, hdec, Bool.not_eq_true',
              decide_eq_false_iff_not]
            intro hmsgs
            exact absurd (by simp [validateJob, hmsgs]) herrs
          refine hstep _ ?_
          intro e he
          rcases List.mem_append.mp he with he' | he'
          · exact h e he'
          · obtain ⟨m, _, rfl⟩ := List.mem_map.mp he'
            exact hnew m hv

/-- Propositional form of the `args` check: accepting "array or null" is the
same as "null whenever not an array". -/
theorem argsNullTaut (a : Json) :
    ((a.isArr = false → a = Json.null) ↔
      (a.isArr = true ∨ a = Json.null)) := by
  cases h : a.isArr <;> simp [h]

/-- A record passes all of `validateJob`'s checks exactly when it satisfies
the amended validity predicate. -/
theorem validateJobMsgs_eq_nil_iff (job : ExportedJob) :
    validateJobMsgs job = [] ↔ amendedRecordValid job := by
  cases hargs : job.args <;> cases hpri : job.priority <;>
    by_cases ht : job.type = [] <;> by_cases hq : job.queue = [] <;>
      simp [validateJobMsgs, amendedRecordValid, ht, hq, hargs, hpri,
        argsUnmarshalsAsArray_iff, argsNullTaut]

/-- C4 counterexample: a parsed record whose `args` is JSON `null` is counted
valid by validation-only mode (`total = 1, valid = 1, invalid = 0`, no
violations), although its `args` is present but is not a JSON array, so the
claim's validity condition rejects it. -/
theorem c4_counterexample :
    validateFromReader [Line.record (.obj [(gs "type", .str (gs "t")),
        (gs "queue", .str (gs "q")), (gs "args", .null)])] =
      ⟨1, 1, 0, []⟩ ∧
    exportedJobOfJson (.obj [(gs "type", .str (gs "t")),
        (gs "queue", .str (gs "q")), (gs "args", .null)]) =
      some ⟨gs "t", gs "q", some Json.null, none, [], none⟩ ∧
    ¬ claimRecordValid ⟨gs "t", gs "q", some Json.null, none, [], none⟩ := by
  refine ⟨rfl, rfl, ?_⟩
  rintro ⟨-, -, ⟨a, ha, harr⟩, -⟩
  injection ha with ha'
  subst ha'
  exact absurd harr (by simp [Json.isArr])

/-- C4 (amended): validation-only mode counts a parsed record as valid if and
only if its type is non-empty, its queue is non-empty, its `args` field is
present and is a JSON array **or JSON null**, and its priority, when present,
is ≥ 0; each violation is recorded with the violating line's 1-based number;
and the result satisfies `total = valid + invalid`.  (The Go function
performs reads only; it is modelled as a pure fold.) -/
theorem c4_validation_mode :
    (∀ lines : List Line,
        (validateFromReader lines).total =
          (validateFromReader lines).valid +
            (validateFromReader lines).invalid) ∧
    (∀ (job : ExportedJob) (ln : Nat),
        validateJob job ln = [] ↔ amendedRecordValid job) ∧
    (∀ lines : List Line,
        errorsWellPlaced lines (validateFromReader lines).errors = true) := by
  refine ⟨?_, ?_, ?_⟩
  · intro lines
    exact validateAux_balance lines ⟨0, 0, 0, []⟩ 0 rfl
  · intro job ln
    rw [← validateJobMsgs_eq_nil_iff]
    simp [validateJob]
  · intro lines
    have h := validateAux_errors_placed lines [] ⟨0, 0, 0, []⟩
      (by intro e he; simp at he)
    simp only [List.nil_append] at h
    rw [errorsWellPlaced, List.all_eq_true]
    intro e he
    obtain ⟨h1, l, hl, hv⟩ := h e he
    simp [hl, hv, h1]

/-! ## C7 — idempotence of the canonicalizers -/

/-- Lowercasing never yields an ASCII uppercase letter. -/
theorem isUpper_goToLower (n : Nat) : isUpper (goToLower n) = false := by
  unfold goToLower
  split <;> simp [isUpper] <;> omega

/-- Lowercasing a non-uppercase code point is the identity. -/
theorem goToLower_of_not_upper {n : Nat} (h : isUpper n = false) :
    goToLower n = n := by
  unfold goToLower
  split
  · simp [isUpper] at h
    omega
  · rfl

/-- Lowercasing preserves being (or not being) a colon. -/
theorem goToLower_eq_58_iff (n : Nat) : goToLower n = 58 ↔ n = 58 := by
  unfold goToLower
  split <;> omega

/-- A lowercased string contains no uppercase letters. -/
theorem noUpper_toLowerAll (l : GoStr) : noUpper (toLowerAll l) = true := by
  simp only [noUpper, toLowerAll, List.all_map, List.all_eq_true]
  intro n _
  simp [isUpper_goToLower]

/-- Lowercasing a string without uppercase letters is the identity. -/
theorem toLowerAll_of_noUpper {l : GoStr} (h : noUpper l = true) :
    toLowerAll l = l := by
  induction l with
  | nil => rfl
  | cons c rest ih =>
    simp only [noUpper, List.all_cons, Bool.and_eq_true] at h
    simp only [toLowerAll, List.map_cons]
    rw [goToLower_of_not_upper (by simpa using h.1)]
    exact congrArg (c :: ·) (ih (by simpa [noUpper] using h.2))

/-- Adding a non-colon in front of a colon-free string keeps it
colon-free. -/
theorem noDD_cons {a : Nat} {l : GoStr} (h : noDD l = true)
    (hhead : ∀ b, l.head? = some b → ¬(a = 58 ∧ b = 58)) :
    noDD (a :: l) = true := by
  cases l with
  | nil => rfl
  | cons b rest =>
    simp only [noDD, Bool.and_eq_true, Bool.not_eq_eq_eq_not, Bool.not_true,
      decide_eq_false_iff_not]
    exact ⟨hhead b rfl, h⟩

/-- `replaceColons` keeps the head unless it contracts a leading `::`. -/
theorem replaceColons_head (l : GoStr) :
    (replaceColons l).head? = l.head? ∨ (replaceColons l).head? = some 46 := by
  match l with
  | [] => exact Or.inl rfl
  | [c] => exact Or.inl rfl
  | a :: b :: rest =>
    rw [replaceColons]
    split
    · exact Or.inr rfl
    · exact Or.inl rfl

/-- After `strings.ReplaceAll(s, "::", ".")` no `::` remains. -/
theorem noDD_replaceColons (l : GoStr) : noDD (replaceColons l) = true := by
  induction l using replaceColons.induct with
  | case1 => rfl
  | case2 c => rfl
  | case3 a b rest hc ih =>
    rw [replaceColons, if_pos hc]
    refine noDD_cons ih ?_
    intro x _
    omega
  | case4 a b rest hc ih =>
    rw [replaceColons, if_neg hc]
    refine noDD_cons ih ?_
    intro x hx
    rcases replaceColons_head (b :: rest) with h | h <;>
      rw [h] at hx <;> injection hx with hx' <;> omega

/-- `replaceColons` is the identity on colon-free strings. -/
theorem replaceColons_of_noDD {l : GoStr} (h : noDD l = true) :
    replaceColons l = l := by
  induction l using replaceColons.induct with
  | case1 => rfl
  | case2 c => rfl
  | case3 a b rest hc ih =>
    exfalso
    simp only [noDD, Bool.and_eq_true, Bool.not_eq_eq_eq_not, Bool.not_true,
      decide_eq_false_iff_not] at h
    exact h.1 hc
  | case4 a b rest hc ih =>
    simp only [noDD, Bool.and_eq_true] at h
    rw [replaceColons, if_neg hc]
    exact congrArg (a :: ·) (ih h.2)

/-- The dot-insertion loop inserts nothing into a string without uppercase
letters. -/
theorem insertDotsAux_of_noUpper (prev : Nat) {l : GoStr}
    (h : noUpper l = true) : insertDotsAux prev l = l := by
  induction l generalizing prev with
  | nil => rfl
  | cons c rest ih =>
    simp only [noUpper, List.all_cons, Bool.and_eq_true] at h
    rw [insertDotsAux, if_neg]
    · exact congrArg (c :: ·) (ih c (by simpa [noUpper] using h.2))
    · rintro ⟨hc, -⟩
      simp [show isUpper c = false by simpa using h.1] at hc

/-- `insertDots` is the identity on strings without uppercase letters. -/
theorem insertDots_of_noUpper {l : GoStr} (h : noUpper l = true) :
    insertDots l = l := by
  cases l with
  | nil => rfl
  | cons c rest =>
    simp only [noUpper, List.all_cons, Bool.and_eq_true] at h
    rw [insertDots]
    exact congrArg (c :: ·)
      (insertDotsAux_of_noUpper c (by simpa [noUpper] using h.2))

/-- The dot-insertion loop never creates a `::`: inserted dots (46) are not
colons, and original adjacencies are only ever broken up. -/
theorem noDD_insertDotsAux (prev : Nat) (l : GoStr)
    (h : noDD (prev :: l) = true) :
    noDD (prev :: insertDotsAux prev l) = true := by
  induction l generalizing prev with
  | nil => rfl
  | cons c rest ih =>
    simp only [noDD, Bool.and_eq_true, Bool.not_eq_eq_eq_not, Bool.not_true,
      decide_eq_false_iff_not] at h
    rw [insertDotsAux]
    split
    · show noDD (prev :: 46 :: c :: insertDotsAux c rest) = true
      have h1 : noDD (c :: insertDotsAux c rest) = true := ih c h.2
      simp only [noDD, Bool.and_eq_true, Bool.not_eq_eq_eq_not, Bool.not_true,
        decide_eq_false_iff_not]
      exact ⟨by omega, by omega, h1⟩
    · show noDD (prev :: c :: insertDotsAux c rest) = true
      have h1 : noDD (c :: insertDotsAux c rest) = true := ih c h.2
      simp only [noDD, Bool.and_eq_true, Bool.not_eq_eq_eq_not, Bool.not_true,
        decide_eq_false_iff_not]
      exact ⟨h.1, h1⟩

/-- `insertDots` preserves colon-freeness. -/
theorem noDD_insertDots {l : GoStr} (h : noDD l = true) :
    noDD (insertDots l) = true := by
  cases l with
  | nil => rfl
  | cons c rest =>
    rw [insertDots]
    exact noDD_insertDotsAux c rest h

/-- Lowercasing preserves colon-freeness. -/
theorem noDD_toLowerAll {l : GoStr} (h : noDD l = true) :
    noDD (toLowerAll l) = true := by
  induction l using noDD.induct with
  | case1 => rfl
  | case2 c => rfl
  | case3 a b rest ih =>
    simp only [noDD, Bool.and_eq_true, Bool.not_eq_eq_eq_not, Bool.not_true,
      decide_eq_false_iff_not] at h
    have h2 := ih h.2
    simp only [toLowerAll, List.map_cons] at h2 ⊢
    simp only [noDD, Bool.and_eq_true, Bool.not_eq_eq_eq_not, Bool.not_true,
      decide_eq_false_iff_not]
    refine ⟨?_, h2⟩
    rintro ⟨ha, hb⟩
    exact h.1 ⟨(goToLower_eq_58_iff a).mp ha, (goToLower_eq_58_iff b).mp hb⟩

/-- The underscore-insertion loop inserts nothing into a string without
uppercase letters. -/
theorem insertUnderscoresAux_of_noUpper {l : GoStr}
    (h : noUpper l = true) : insertUnderscoresAux l = l := by
  induction l with
  | nil => rfl
  | cons c rest ih =>
    simp only [noUpper, List.all_cons, Bool.and_eq_true] at h
    rw [insertUnderscoresAux, if_neg]
    · exact congrArg (c :: ·) (ih (by simpa [noUpper] using h.2))
    · intro hc
      simp [show isUpper c = false by simpa using h.1] at hc

/-- `insertUnderscores` is the identity on strings without uppercase
letters. -/
theorem insertUnderscores_of_noUpper {l : GoStr} (h : noUpper l = true) :
    insertUnderscores l = l := by
  cases l with
  | nil => rfl
  | cons c rest =>
    simp only [noUpper, List.all_cons, Bool.and_eq_true] at h
    rw [insertUnderscores]
    exact congrArg (c :: ·)
      (insertUnderscoresAux_of_noUpper (by simpa [noUpper] using h.2))

/-- `replaceUnderscores` leaves no underscore behind. -/
theorem no95_replaceUnderscores (l : GoStr) :
    no95 (replaceUnderscores l) = true := by
  simp only [no95, replaceUnderscores, List.all_map, List.all_eq_true]
  intro n _
  simp only [Function.comp]
  split <;> simp_all

/-- `replaceUnderscores` is the identity on underscore-free strings. -/
theorem replaceUnderscores_of_no95 {l : GoStr} (h : no95 l = true) :
    replaceUnderscores l = l := by
  induction l with
  | nil => rfl
  | cons c rest ih =>
    simp only [no95, List.all_cons, Bool.and_eq_true, decide_eq_true_eq] at h
    simp only [replaceUnderscores, List.map_cons]
    rw [if_neg h.1]
    exact congrArg (c :: ·) (ih (by simpa [no95] using h.2))

/-- `replaceUnderscores` preserves the absence of uppercase letters. -/
theorem noUpper_replaceUnderscores {l : GoStr} (h : noUpper l = true) :
    noUpper (replaceUnderscores l) = true := by
  simp only [noUpper, replaceUnderscores, List.all_map, List.all_eq_true]
  simp only [noUpper, List.all_eq_true] at h
  intro n hn
  have := h n hn
  simp only [Function.comp]
  split
  · simp [isUpper]
  · exact this

/-- C7: both canonicalization routines are idempotent — the adapter-side
class-name converter `sidekiqClassToType` and the code-analysis job-type
converter `toOJSJobType` each return their own output unchanged when applied
again. -/
theorem c7_canonicalize_idempotent (s : GoStr) :
    sidekiqClassToType (sidekiqClassToType s) = sidekiqClassToType s ∧
    ∀ framework : GoStr,
      toOJSJobType (toOJSJobType s framework) framework =
        toOJSJobType s framework := by
  constructor
  · have hub : noUpper (sidekiqClassToType s) = true := noUpper_toLowerAll _
    have hdd : noDD (sidekiqClassToType s) = true :=
      noDD_toLowerAll (noDD_insertDots (noDD_replaceColons s))
    calc sidekiqClassToType (sidekiqClassToType s)
        = toLowerAll (insertDots (replaceColons (sidekiqClassToType s))) :=
          rfl
      _ = toLowerAll (insertDots (sidekiqClassToType s)) := by
          rw [replaceColons_of_noDD hdd]
      _ = toLowerAll (sidekiqClassToType s) := by
          rw [insertDots_of_noUpper hub]
      _ = sidekiqClassToType s := toLowerAll_of_noUpper hub
  · intro framework
    have hub : noUpper (camelToSnake s) = true := noUpper_toLowerAll _
    have hub' : noUpper (toOJSJobType s framework) = true :=
      noUpper_replaceUnderscores hub
    have h95 : no95 (toOJSJobType s framework) = true :=
      no95_replaceUnderscores _
    calc toOJSJobType (toOJSJobType s framework) framework
        = replaceUnderscores (toLowerAll
            (insertUnderscores (toOJSJobType s framework))) := rfl
      _ = replaceUnderscores (toLowerAll (toOJSJobType s framework)) := by
          rw [insertUnderscores_of_noUpper hub']
      _ = replaceUnderscores (toOJSJobType s framework) := by
          rw [toLowerAll_of_noUpper hub']
      _ = toOJSJobType s framework := replaceUnderscores_of_no95 h95

end OjsCli
